import Mathlib

/-!
Shallow embedding of the Game-of-Life simulator (src/src/main.rs) and proofs
of its specification claims.

Machine-integer conventions:
* `u64` values are `Nat` reduced modulo `2^64` where the code relies on
  wraparound (`overflowing_mul` / `overflowing_add`).
* `i16` values are `Int`s in `[-32768, 32767]`; the one place the code can
  overflow an `i16` (`Coord::step`'s additions) is modelled with two's
  complement wraparound (`wrapI16`), the release-mode Rust semantics.
* `u8` grid dimensions are `Nat`s; theorems carry the `[1, 255]` bounds.
* `rem_euclid` on `i16` with a positive divisor is `Int.emod`; the divisor-zero
  panic of `rem_euclid` is modelled separately by `remEuclidChecked`.
-/

/-- Two's complement wraparound into the signed 16-bit range, the
release-mode semantics of `i16` addition overflow. -/
def wrapI16 (z : Int) : Int :=
  (z + 32768) % 65536 - 32768

/-- Predicate: `z` is representable as an `i16`. -/
def isI16 (z : Int) : Prop :=
  -32768 ≤ z ∧ z ≤ 32767

instance (z : Int) : Decidable (isI16 z) := by
  unfold isI16; infer_instance

namespace LCG

/-- Constant `RAND_A` from `LCG::random_u32`. -/
def RAND_A : Nat := 6364136223846793005

/-- Constant `RAND_C` from `LCG::random_u32`. -/
def RAND_C : Nat := 1442695040888963407

/-- Function `LCG::random_u32`: the state is mutated by an overflowing multiply by
`RAND_A` then an overflowing add of `RAND_C` (both mod `2^64`), and the
upper 32 bits of the new state are returned (the `as u32` cast is the
final `% 2^32`).  Returns `(new state, emitted value)`. -/
def random_u32 (state : Nat) : Nat × Nat :=
  let s1 := (state * RAND_A) % 2 ^ 64
  let s2 := (s1 + RAND_C) % 2 ^ 64
  (s2, (s2 >>> 32) % 2 ^ 32)

end LCG

/-- Struct `Coord`, a pair of `i16` fields. -/
structure Coord where
  x : Int
  y : Int
deriving DecidableEq, Repr

namespace Coord

/-- Method `Coord::step`: componentwise translation; `i16` addition wraps on
overflow (release semantics). -/
def step (c : Coord) (velx vely : Int) : Coord :=
  { x := wrapI16 (c.x + velx), y := wrapI16 (c.y + vely) }

/-- Method `Coord::neighbors`: the 8 Moore neighbours, in source order
NW, N, NE, W, E, SW, S, SE. -/
def neighbors (c : Coord) : List Coord :=
  [ c.step (-1) (-1)
  , c.step 0 (-1)
  , c.step 1 (-1)
  , c.step (-1) 0
  , c.step 1 0
  , c.step (-1) 1
  , c.step 0 1
  , c.step 1 1 ]

/-- Method `i16::rem_euclid` including its divisor-zero panic: `none` models the
panic, `some` the returned value. -/
def remEuclidChecked (a b : Int) : Option Int :=
  if b = 0 then none else some (a % b)

/-- Method `Coord::wrap`: Euclidean remainder of each component by the grid
dimensions (`rem_euclid` against a positive divisor is `Int.emod`). -/
def wrap (c : Coord) (width height : Nat) : Coord :=
  { x := c.x % (width : Int), y := c.y % (height : Int) }

/-- Method `Coord::wrap` with the divisor-zero panic of `rem_euclid` made explicit. -/
def wrapChecked (c : Coord) (width height : Nat) : Option Coord :=
  match remEuclidChecked c.x width, remEuclidChecked c.y height with
  | some x, some y => some { x := x, y := y }
  | _, _ => none

/-- Method `Coord::index_in`: wrap, then linearize as `y*width + x`. -/
def index_in (c : Coord) (width height : Nat) : Nat :=
  ((c.wrap width height).y.toNat) * width + ((c.wrap width height).x.toNat)

/-- Method `Coord::index_in` with the divisor-zero panic of `rem_euclid` made
explicit. -/
def indexInChecked (c : Coord) (width height : Nat) : Option Nat :=
  (c.wrapChecked width height).map fun c2 => c2.y.toNat * width + c2.x.toNat

end Coord

/-- Enum `CellStatus`. -/
inductive CellStatus where
  | Alive : CellStatus
  | Dead : CellStatus
deriving DecidableEq, Repr

/-- Struct `GOL`. -/
structure GOL where
  width : Nat
  height : Nat
  grid : List CellStatus
deriving DecidableEq, Repr

namespace GOL

/-- Method `GOL::is_alive`: wrapped lookup compared with `Alive`.  (On every state
reachable through the claims' hypotheses the index is in bounds, so the
`getD` default is never consulted.) -/
def is_alive (g : GOL) (c : Coord) : Bool :=
  g.grid.getD (c.index_in g.width g.height) CellStatus.Dead = CellStatus.Alive

/-- The live-neighbour count computed inside `GOL::step`. -/
def numLiveNeighbors (g : GOL) (c : Coord) : Nat :=
  (c.neighbors.filter fun c2 => g.is_alive c2).length

/-- The `match` deciding a cell's next status in `GOL::step`, in source
arm order. -/
def nextStatus (s : CellStatus) (liveNeighbors : Nat) : CellStatus :=
  match s with
  | CellStatus.Alive =>
      if liveNeighbors < 2 then CellStatus.Dead
      else if liveNeighbors = 2 ∨ liveNeighbors = 3 then CellStatus.Alive
      else CellStatus.Dead
  | CellStatus.Dead =>
      if liveNeighbors = 3 then CellStatus.Alive else CellStatus.Dead

/-- Method `GOL::step`: starting from a clone of the grid, the row-major double
loop overwrites each cell's slot with the status dictated by the rules,
reading statuses and neighbour counts from the pre-step grid `g`; finally
the new buffer replaces the grid. -/
def step (g : GOL) : GOL :=
  let next :=
    (List.range g.height).foldl
      (fun acc (y : Nat) =>
        (List.range g.width).foldl
          (fun acc2 (x : Nat) =>
            let c : Coord := { x := (x : Int), y := (y : Int) }
            let idx := c.index_in g.width g.height
            acc2.set idx
              (nextStatus (g.grid.getD idx CellStatus.Dead)
                (g.numLiveNeighbors c)))
          acc)
      g.grid
  { g with grid := next }

/-- Method `GOL::from_iter`: an all-`Dead` grid of `width*height` cells, then each
supplied coordinate's wrapped index is set `Alive`. -/
def from_iter (width height : Nat) (live_coords : List Coord) : GOL :=
  let grid := (List.range (width * height)).map fun _ => CellStatus.Dead
  let grid2 :=
    live_coords.foldl
      (fun acc c => acc.set (c.index_in width height) CellStatus.Alive) grid
  { width := width, height := height, grid := grid2 }

/-- Total number of `Alive` cells (the population measure of claim C10). -/
def aliveCount (g : GOL) : Nat :=
  (g.grid.filter fun s => s = CellStatus.Alive).length

end GOL

/-- The Moore-neighbourhood offsets in the order `Coord::neighbors`
enumerates them. -/
def mooreOffsets : List (Int × Int) :=
  [(-1, -1), (0, -1), (1, -1), (-1, 0), (1, 0), (-1, 1), (0, 1), (1, 1)]

/-- Spec-side lookup: the cell of `g` at the toroidally wrapped position of
the integer point `(x, y)` (Euclidean modulo on each axis, then row-major
linearization), from the given snapshot. -/
def aliveAtSpec (g : GOL) (x y : Int) : Bool :=
  g.grid.getD
    ((y % (g.height : Int)).toNat * g.width + (x % (g.width : Int)).toNat)
    CellStatus.Dead = CellStatus.Alive

/-- Spec-side neighbour count: live cells among the 8 toroidally wrapped
Moore neighbours of `(x, y)`, taken from the snapshot `g`. -/
def specLiveCount (g : GOL) (x y : Int) : Nat :=
  (mooreOffsets.filter fun d => aliveAtSpec g (x + d.1) (y + d.2)).length

/-- The four Life rules transcribed from the spec's rule table:
underpopulation, survival, overpopulation, reproduction, and otherwise the
cell keeps its status. -/
def lifeRule (s : CellStatus) (n : Nat) : CellStatus :=
  if s = CellStatus.Alive ∧ n < 2 then CellStatus.Dead
  else if s = CellStatus.Alive ∧ (n = 2 ∨ n = 3) then CellStatus.Alive
  else if s = CellStatus.Alive ∧ n > 3 then CellStatus.Dead
  else if s = CellStatus.Dead ∧ n = 3 then CellStatus.Alive
  else s

/-- A 5x5 grid with a horizontal blinker at (1,2), (2,2), (3,2). -/
def blinkerH : GOL :=
  GOL.from_iter 5 5 [{ x := 1, y := 2 }, { x := 2, y := 2 }, { x := 3, y := 2 }]

/-- A 5x5 grid with a vertical blinker at (2,1), (2,2), (2,3). -/
def blinkerV : GOL :=
  GOL.from_iter 5 5 [{ x := 2, y := 1 }, { x := 2, y := 2 }, { x := 2, y := 3 }]

/-- A 3x3 grid whose only live cell is the center. -/
def centerOnly3 : GOL :=
  GOL.from_iter 3 3 [{ x := 1, y := 1 }]

/-! ### Generic helper lemmas -/

theorem wrapI16_eq_self (z : Int) (h1 : -32768 ≤ z) (h2 : z ≤ 32767) :
    wrapI16 z = z := by
  unfold wrapI16
  omega

theorem wrapI16_eq_iff_of_close (a b : Int) (h : a - b < 65536) (h2 : b - a < 65536) :
    wrapI16 a = wrapI16 b ↔ a = b := by
  unfold wrapI16
  omega

theorem getD_set_same {α : Type} (l : List α) (j : Nat) (hj : j < l.length)
    (a d : α) : (l.set j a).getD j d = a := by
  simp [List.getD_eq_getElem?_getD, List.getElem?_set, hj]

theorem getD_set_ne {α : Type} (l : List α) {i j : Nat} (hne : i ≠ j) (a d : α) :
    (l.set i a).getD j d = l.getD j d := by
  simp [List.getD_eq_getElem?_getD, List.getElem?_set_ne hne]

theorem length_foldl_of_preserve {α β : Type} (f : List α → β → List α)
    (hf : ∀ a b, (f a b).length = a.length) :
    ∀ (xs : List β) (l : List α), (xs.foldl f l).length = l.length := by
  intro xs
  induction xs with
  | nil => intro l; rfl
  | cons x xs ih => intro l; rw [List.foldl_cons, ih, hf]

theorem length_foldl_set {α β : Type} (pos : β → Nat) (v : β → α)
    (xs : List β) (l : List α) :
    (xs.foldl (fun a b => a.set (pos b) (v b)) l).length = l.length :=
  length_foldl_of_preserve _ (fun a b => List.length_set a (pos b) (v b)) xs l

theorem getD_foldl_set_range {α : Type} (v : Nat → α) (l : List α) (d : α)
    (j : Nat) (hj : j < l.length) :
    ∀ n, j < n →
      ((List.range n).foldl (fun a i => a.set i (v i)) l).getD j d = v j := by
  intro n
  induction n with
  | zero => omega
  | succ n ih =>
    intro hjn
    rw [List.range_succ, List.foldl_append, List.foldl_cons, List.foldl_nil]
    by_cases hcase : j = n
    · subst hcase
      apply getD_set_same
      rw [length_foldl_set]
      exact hj
    · rw [getD_set_ne _ (fun hh => hcase hh.symm)]
      exact ih (by omega)

theorem foldl_nested_range {α : Type} (S : List α → Nat → List α) (W : Nat) :
    ∀ (H : Nat) (l : List α),
      (List.range H).foldl
        (fun a y => (List.range W).foldl (fun a2 x => S a2 (y * W + x)) a) l =
      (List.range (H * W)).foldl S l := by
  intro H
  induction H with
  | zero => intro l; simp
  | succ H ih =>
    intro l
    rw [List.range_succ, List.foldl_append, List.foldl_cons, List.foldl_nil, ih]
    have hadd : (H + 1) * W = H * W + W := by ring
    rw [hadd, List.range_add, List.foldl_append, List.foldl_map]


/-! ### Wrapping and indexing facts -/

theorem index_in_of_inbounds (x y w h : Nat) (hx : x < w) (hy : y < h) :
    Coord.index_in { x := (x : Int), y := (y : Int) } w h = y * w + x := by
  unfold Coord.index_in Coord.wrap
  have hxw : ((x : Int)) % (w : Int) = (x : Int) :=
    Int.emod_eq_of_lt (by positivity) (by exact_mod_cast hx)
  have hyh : ((y : Int)) % (h : Int) = (y : Int) :=
    Int.emod_eq_of_lt (by positivity) (by exact_mod_cast hy)
  simp only [hxw, hyh, Int.toNat_natCast]

theorem is_alive_mk_eq_aliveAtSpec (g : GOL) (a b : Int) :
    g.is_alive { x := a, y := b } = aliveAtSpec g a b := rfl

/-- The cell written by `GOL::step`'s double loop at grid slot `y*w + x` is
a function of the flattened index alone, computed from the pre-step grid. -/
theorem step_grid_getD (g : GOL) (hlen : g.grid.length = g.width * g.height)
    (hw : 1 ≤ g.width) (j : Nat) (hj : j < g.width * g.height) :
    g.step.grid.getD j CellStatus.Dead =
      GOL.nextStatus (g.grid.getD j CellStatus.Dead)
        (g.numLiveNeighbors { x := ((j % g.width : Nat) : Int),
                              y := ((j / g.width : Nat) : Int) }) := by
  have hbody :
      (List.range g.height).foldl
        (fun acc (y : Nat) =>
          (List.range g.width).foldl
            (fun acc2 (x : Nat) =>
              acc2.set (Coord.index_in { x := (x : Int), y := (y : Int) } g.width g.height)
                (GOL.nextStatus
                  (g.grid.getD
                    (Coord.index_in { x := (x : Int), y := (y : Int) } g.width g.height)
                    CellStatus.Dead)
                  (g.numLiveNeighbors { x := (x : Int), y := (y : Int) })))
            acc)
        g.grid =
      (List.range g.height).foldl
        (fun acc (y : Nat) =>
          (List.range g.width).foldl
            (fun acc2 (x : Nat) =>
              acc2.set (y * g.width + x)
                (GOL.nextStatus (g.grid.getD (y * g.width + x) CellStatus.Dead)
                  (g.numLiveNeighbors
                    { x := (((y * g.width + x) % g.width : Nat) : Int),
                      y := (((y * g.width + x) / g.width : Nat) : Int) })))
            acc)
        g.grid := by
    apply List.foldl_ext
    intro a y hy
    apply List.foldl_ext
    intro a2 x hx
    rw [List.mem_range] at hx hy
    have hidx : Coord.index_in { x := (x : Int), y := (y : Int) } g.width g.height
        = y * g.width + x := index_in_of_inbounds x y _ _ hx hy
    have hmod : (y * g.width + x) % g.width = x := by
      rw [Nat.mul_comm y g.width, Nat.mul_add_mod, Nat.mod_eq_of_lt hx]
    have hdiv : (y * g.width + x) / g.width = y := by
      rw [Nat.mul_comm y g.width, Nat.mul_add_div (by omega),
        Nat.div_eq_of_lt hx, Nat.add_zero]
    rw [hidx, hmod, hdiv]
  have hstep : g.step.grid =
      (List.range g.height).foldl
        (fun acc (y : Nat) =>
          (List.range g.width).foldl
            (fun acc2 (x : Nat) =>
              acc2.set (Coord.index_in { x := (x : Int), y := (y : Int) } g.width g.height)
                (GOL.nextStatus
                  (g.grid.getD
                    (Coord.index_in { x := (x : Int), y := (y : Int) } g.width g.height)
                    CellStatus.Dead)
                  (g.numLiveNeighbors { x := (x : Int), y := (y : Int) })))
            acc)
        g.grid := rfl
  rw [hstep, hbody,
    foldl_nested_range
      (fun a i =>
        a.set i
          (GOL.nextStatus (g.grid.getD i CellStatus.Dead)
            (g.numLiveNeighbors { x := ((i % g.width : Nat) : Int),
                                  y := ((i / g.width : Nat) : Int) })))
      g.width g.height g.grid]
  exact getD_foldl_set_range _ g.grid CellStatus.Dead j
    (by omega) (g.height * g.width) (by rw [Nat.mul_comm g.height g.width]; omega)

/-! ### Neighbour structure -/

theorem neighbors_eq_map (c : Coord) :
    c.neighbors = mooreOffsets.map (fun d => c.step d.1 d.2) := rfl

theorem mem_mooreOffsets_bounds (d : Int × Int) (hd : d ∈ mooreOffsets) :
    (-1 ≤ d.1 ∧ d.1 ≤ 1) ∧ (-1 ≤ d.2 ∧ d.2 ≤ 1) := by
  fin_cases hd <;> exact ⟨⟨by norm_num, by norm_num⟩, ⟨by norm_num, by norm_num⟩⟩

theorem step_eq_translate (c : Coord) (dx dy : Int)
    (hx1 : -32768 ≤ c.x + dx) (hx2 : c.x + dx ≤ 32767)
    (hy1 : -32768 ≤ c.y + dy) (hy2 : c.y + dy ≤ 32767) :
    c.step dx dy = { x := c.x + dx, y := c.y + dy } := by
  unfold Coord.step
  rw [wrapI16_eq_self _ hx1 hx2, wrapI16_eq_self _ hy1 hy2]

theorem neighbors_eq_translates (x y : Nat) (hx : x ≤ 254) (hy : y ≤ 254) :
    (Coord.neighbors { x := (x : Int), y := (y : Int) }) =
      mooreOffsets.map (fun d => { x := (x : Int) + d.1, y := (y : Int) + d.2 }) := by
  rw [neighbors_eq_map]
  apply List.map_congr_left
  intro d hd
  obtain ⟨⟨h1, h2⟩, ⟨h3, h4⟩⟩ := mem_mooreOffsets_bounds d hd
  exact step_eq_translate _ _ _
    (by push_cast; omega) (by push_cast; omega) (by push_cast; omega) (by push_cast; omega)

theorem numLiveNeighbors_eq_specLiveCount (g : GOL) (x y : Nat)
    (hx : x < g.width) (hw : g.width ≤ 255) (hy : y < g.height) (hh : g.height ≤ 255) :
    g.numLiveNeighbors { x := (x : Int), y := (y : Int) } = specLiveCount g x y := by
  unfold GOL.numLiveNeighbors specLiveCount
  rw [← List.countP_eq_length_filter, ← List.countP_eq_length_filter,
    neighbors_eq_translates x y (by omega) (by omega), List.countP_map]
  rfl

set_option linter.unnecessarySeqFocus false in
theorem nextStatus_eq_lifeRule (s : CellStatus) (n : Nat) :
    GOL.nextStatus s n = lifeRule s n := by
  cases s <;> unfold GOL.nextStatus lifeRule <;> split_ifs <;> simp_all <;> try omega

/-! ### Claim theorems -/

/-- C1: For every grid with width and height in [1,255] (and the length
invariant), after one `step()` the cell at in-bounds position `(x, y)` is
exactly the result of the four Life rules applied to that cell's pre-step
status and the count of live cells among its 8 toroidally wrapped Moore
neighbours, both taken from the pre-step snapshot; in particular no
neighbour count is affected by updates made to other cells in this step. -/
theorem step_follows_life_rules (g : GOL)
    (hw1 : 1 ≤ g.width) (hw2 : g.width ≤ 255)
    (_hh1 : 1 ≤ g.height) (hh2 : g.height ≤ 255)
    (hlen : g.grid.length = g.width * g.height)
    (x y : Nat) (hx : x < g.width) (hy : y < g.height) :
    g.step.grid.getD (y * g.width + x) CellStatus.Dead =
      lifeRule (g.grid.getD (y * g.width + x) CellStatus.Dead)
        (specLiveCount g (x : Int) (y : Int)) := by
  have hj : y * g.width + x < g.width * g.height := by
    have h1 : y * g.width + x < (y + 1) * g.width := by
      rw [Nat.succ_mul]; omega
    have h2 : (y + 1) * g.width ≤ g.height * g.width :=
      Nat.mul_le_mul_right _ (by omega)
    calc y * g.width + x < (y + 1) * g.width := h1
      _ ≤ g.height * g.width := h2
      _ = g.width * g.height := Nat.mul_comm _ _
  rw [step_grid_getD g hlen hw1 _ hj]
  have hmod : (y * g.width + x) % g.width = x := by
    rw [Nat.mul_comm y g.width, Nat.mul_add_mod, Nat.mod_eq_of_lt hx]
  have hdiv : (y * g.width + x) / g.width = y := by
    rw [Nat.mul_comm y g.width, Nat.mul_add_div (by omega),
      Nat.div_eq_of_lt hx, Nat.add_zero]
  rw [hmod, hdiv, numLiveNeighbors_eq_specLiveCount g x y hx hw2 hy hh2,
    nextStatus_eq_lifeRule]

/-- Witness for C1 at the horizontal blinker, cell (2, 1). -/
theorem step_follows_life_rules_witness :
    (1 ≤ blinkerH.width ∧ blinkerH.width ≤ 255 ∧ 1 ≤ blinkerH.height ∧
      blinkerH.height ≤ 255 ∧
      blinkerH.grid.length = blinkerH.width * blinkerH.height ∧
      2 < blinkerH.width ∧ 1 < blinkerH.height) ∧
    blinkerH.step.grid.getD (1 * blinkerH.width + 2) CellStatus.Dead =
      lifeRule (blinkerH.grid.getD (1 * blinkerH.width + 2) CellStatus.Dead)
        (specLiveCount blinkerH 2 1) :=
  ⟨⟨by decide, by decide, by decide, by decide, by decide, by decide, by decide⟩,
   step_follows_life_rules blinkerH (by decide) (by decide) (by decide) (by decide)
     (by decide) 2 1 (by decide) (by decide)⟩

/-- C2: For every signed 16-bit coordinate and dimensions in [1,255],
`wrap` returns the Euclidean modulo of each component, both components lie
in `[0,w) x [0,h)`, and wrapping (-1,0) with width 5 and height 5 gives
(4,0). -/
theorem wrap_is_euclid_mod (x y : Int) (_hx : isI16 x) (_hy : isI16 y)
    (w h : Nat) (hw1 : 1 ≤ w) (hw2 : w ≤ 255) (hh1 : 1 ≤ h) (hh2 : h ≤ 255) :
    Coord.wrap { x := x, y := y } w h
      = { x := x % (w : Int), y := y % (h : Int) } ∧
    0 ≤ x % (w : Int) ∧ x % (w : Int) < (w : Int) ∧
    0 ≤ y % (h : Int) ∧ y % (h : Int) < (h : Int) ∧
    Coord.wrap { x := -1, y := 0 } 5 5 = { x := 4, y := 0 } := by
  refine ⟨rfl, Int.emod_nonneg x (by omega), Int.emod_lt_of_pos x (by omega),
    Int.emod_nonneg y (by omega), Int.emod_lt_of_pos y (by omega), by decide⟩

/-- Witness for C2 at x = -1, y = 0, w = h = 5. -/
theorem wrap_is_euclid_mod_witness :
    (isI16 (-1) ∧ isI16 0 ∧ 1 ≤ 5 ∧ 5 ≤ 255) ∧
    (Coord.wrap { x := -1, y := 0 } 5 5
        = { x := (-1) % (5 : Int), y := 0 % (5 : Int) } ∧
      0 ≤ (-1) % (5 : Int) ∧ (-1) % (5 : Int) < (5 : Int) ∧
      0 ≤ (0 : Int) % (5 : Int) ∧ (0 : Int) % (5 : Int) < (5 : Int) ∧
      Coord.wrap { x := -1, y := 0 } 5 5 = { x := 4, y := 0 }) :=
  ⟨⟨by decide, by decide, by decide, by decide⟩,
   wrap_is_euclid_mod (-1) 0 (by decide) (by decide) 5 5
     (by decide) (by decide) (by decide) (by decide)⟩

/-- C3: `random_u32` updates the state to `(s*A + C) mod 2^64` and emits the
upper 32 bits of the post-update state; with seed 0 the first draw is
`((0*A + C) mod 2^64) >> 32`.  The emitted sequence is therefore a pure
function of the seed. -/
theorem random_u32_is_knuth_lcg (s : Nat) :
    (LCG.random_u32 s).1 = (s * LCG.RAND_A + LCG.RAND_C) % 2 ^ 64 ∧
    (LCG.random_u32 s).2 = ((s * LCG.RAND_A + LCG.RAND_C) % 2 ^ 64) >>> 32 ∧
    (LCG.random_u32 0).2 = ((0 * LCG.RAND_A + LCG.RAND_C) % 2 ^ 64) >>> 32 := by
  refine ⟨Nat.mod_add_mod _ _ _, ?_, by decide⟩
  show ((((s * LCG.RAND_A) % 2 ^ 64 + LCG.RAND_C) % 2 ^ 64) >>> 32) % 2 ^ 32 = _
  rw [Nat.mod_add_mod]
  have hlt : (s * LCG.RAND_A + LCG.RAND_C) % 2 ^ 64 < 2 ^ 64 :=
    Nat.mod_lt _ (by norm_num)
  have hshift : ((s * LCG.RAND_A + LCG.RAND_C) % 2 ^ 64) >>> 32 < 2 ^ 32 := by
    rw [Nat.shiftRight_eq_div_pow]
    exact (Nat.div_lt_iff_lt_mul (by norm_num)).mpr (by norm_num at hlt ⊢; omega)
  exact Nat.mod_eq_of_lt hshift

/-- C4 (counterexample): `index_in` is not panic-free for arbitrary width
and height arguments — with width 0, the `rem_euclid` inside `wrap` divides
by zero and panics (modelled as `none`), already at coordinate (0, 0). -/
theorem index_in_width_zero_fails :
    Coord.indexInChecked { x := 0, y := 0 } 0 5 = none := by decide

/-- C4 (amended): for every signed 16-bit coordinate and width and height
in [1,255], `index_in` cannot fail, wraps the coordinate first, then
linearizes it as `y*width + x`, and the result is in range `[0, w*h)`. -/
theorem index_in_wraps_then_linearizes (x y : Int) (_hx : isI16 x) (_hy : isI16 y)
    (w h : Nat) (hw1 : 1 ≤ w) (hw2 : w ≤ 255) (hh1 : 1 ≤ h) (hh2 : h ≤ 255) :
    Coord.indexInChecked { x := x, y := y } w h
      = some (Coord.index_in { x := x, y := y } w h) ∧
    Coord.index_in { x := x, y := y } w h
      = ((Coord.wrap { x := x, y := y } w h).y.toNat) * w
          + ((Coord.wrap { x := x, y := y } w h).x.toNat) ∧
    Coord.index_in { x := x, y := y } w h < w * h := by
  have hw0 : ((w : Nat) : Int) ≠ 0 := by omega
  have hh0 : ((h : Nat) : Int) ≠ 0 := by omega
  refine ⟨?_, rfl, ?_⟩
  · unfold Coord.indexInChecked Coord.wrapChecked Coord.remEuclidChecked
    simp only [hw0, hh0, if_false, Option.map_some]
    rfl
  · have h1 : 0 ≤ x % (w : Int) := Int.emod_nonneg x hw0
    have h2 : x % (w : Int) < (w : Int) := Int.emod_lt_of_pos x (by omega)
    have h3 : 0 ≤ y % (h : Int) := Int.emod_nonneg y hh0
    have h4 : y % (h : Int) < (h : Int) := Int.emod_lt_of_pos y (by omega)
    have h5 : (x % (w : Int)).toNat < w := by omega
    have h6 : (y % (h : Int)).toNat < h := by omega
    unfold Coord.index_in Coord.wrap
    simp only []
    calc (y % (h : Int)).toNat * w + (x % (w : Int)).toNat
        < (y % (h : Int)).toNat * w + w := by omega
      _ = ((y % (h : Int)).toNat + 1) * w := by ring
      _ ≤ h * w := Nat.mul_le_mul_right _ (by omega)
      _ = w * h := Nat.mul_comm _ _

/-- Witness for the amended C4 at x = -1, y = 0, w = h = 5. -/
theorem index_in_wraps_then_linearizes_witness :
    (isI16 (-1) ∧ isI16 0 ∧ 1 ≤ 5 ∧ 5 ≤ 255) ∧
    (Coord.indexInChecked { x := -1, y := 0 } 5 5
        = some (Coord.index_in { x := -1, y := 0 } 5 5) ∧
      Coord.index_in { x := -1, y := 0 } 5 5
        = ((Coord.wrap { x := -1, y := 0 } 5 5).y.toNat) * 5
            + ((Coord.wrap { x := -1, y := 0 } 5 5).x.toNat) ∧
      Coord.index_in { x := -1, y := 0 } 5 5 < 5 * 5) :=
  ⟨⟨by decide, by decide, by decide, by decide⟩,
   index_in_wraps_then_linearizes (-1) 0 (by decide) (by decide) 5 5
     (by decide) (by decide) (by decide) (by decide)⟩

/-- C5: for every signed 16-bit coordinate, `neighbors()` is exactly the
Moore neighbourhood (the eight nonzero offsets in {-1,0,1}^2 applied by
`step`), has length 8, is pairwise distinct, and excludes the center. -/
theorem neighbors_eight_distinct (c : Coord) (hx : isI16 c.x) (hy : isI16 c.y) :
    c.neighbors = mooreOffsets.map (fun d => c.step d.1 d.2) ∧
    c.neighbors.length = 8 ∧ c.neighbors.Nodup ∧ c ∉ c.neighbors := by
  obtain ⟨hx1, hx2⟩ := hx
  obtain ⟨hy1, hy2⟩ := hy
  refine ⟨neighbors_eq_map c, rfl, ?_, ?_⟩
  · rw [neighbors_eq_map]
    apply List.Nodup.map_on
    · intro d hd d2 hd2 heq
      obtain ⟨⟨a1, a2⟩, ⟨a3, a4⟩⟩ := mem_mooreOffsets_bounds d hd
      obtain ⟨⟨b1, b2⟩, ⟨b3, b4⟩⟩ := mem_mooreOffsets_bounds d2 hd2
      unfold Coord.step at heq
      rw [Coord.mk.injEq] at heq
      obtain ⟨e1, e2⟩ := heq
      have g1 := (wrapI16_eq_iff_of_close (c.x + d.1) (c.x + d2.1)
        (by omega) (by omega)).mp e1
      have g2 := (wrapI16_eq_iff_of_close (c.y + d.2) (c.y + d2.2)
        (by omega) (by omega)).mp e2
      exact Prod.ext (by omega) (by omega)
    · decide
  · intro hmem
    rw [neighbors_eq_map, List.mem_map] at hmem
    obtain ⟨d, hd, heq⟩ := hmem
    obtain ⟨⟨a1, a2⟩, ⟨a3, a4⟩⟩ := mem_mooreOffsets_bounds d hd
    have e1 : wrapI16 (c.x + d.1) = c.x := congrArg Coord.x heq
    have e2 : wrapI16 (c.y + d.2) = c.y := congrArg Coord.y heq
    nth_rewrite 2 [← wrapI16_eq_self c.x hx1 hx2] at e1
    nth_rewrite 2 [← wrapI16_eq_self c.y hy1 hy2] at e2
    have g1 : c.x + d.1 = c.x :=
      (wrapI16_eq_iff_of_close _ _ (by omega) (by omega)).mp e1
    have g2 : c.y + d.2 = c.y :=
      (wrapI16_eq_iff_of_close _ _ (by omega) (by omega)).mp e2
    have hzero : d = ((0 : Int), (0 : Int)) := Prod.ext (by omega) (by omega)
    rw [hzero] at hd
    exact absurd hd (by decide)

/-- Witness for C5 at the origin. -/
theorem neighbors_eight_distinct_witness :
    (isI16 (0 : Int) ∧ isI16 (0 : Int)) ∧
    ((Coord.neighbors { x := 0, y := 0 })
        = mooreOffsets.map (fun d => Coord.step { x := 0, y := 0 } d.1 d.2) ∧
      (Coord.neighbors { x := 0, y := 0 }).length = 8 ∧
      (Coord.neighbors { x := 0, y := 0 }).Nodup ∧
      ({ x := 0, y := 0 } : Coord) ∉ Coord.neighbors { x := 0, y := 0 }) :=
  ⟨⟨by decide, by decide⟩,
   neighbors_eight_distinct { x := 0, y := 0 } (by decide) (by decide)⟩

/-! ### `from_iter` characterization -/

theorem linear_index_lt (x y w h : Nat) (hx : x < w) (hy : y < h) :
    y * w + x < w * h := by
  calc y * w + x < (y + 1) * w := by rw [Nat.succ_mul]; omega
    _ ≤ h * w := Nat.mul_le_mul_right _ (by omega)
    _ = w * h := Nat.mul_comm _ _

theorem foldl_set_alive_miss (w h : Nat) (cs : List Coord) :
    ∀ (l : List CellStatus) (j : Nat), (∀ c ∈ cs, c.index_in w h ≠ j) →
      (cs.foldl (fun acc c => acc.set (c.index_in w h) CellStatus.Alive) l)[j]?
        = l[j]? := by
  induction cs with
  | nil => intro l j _; rfl
  | cons c cs ih =>
    intro l j hno
    rw [List.foldl_cons,
      ih _ _ (fun c2 hm => hno c2 (List.mem_cons_of_mem _ hm)),
      List.getElem?_set_ne (hno c (List.mem_cons_self c cs))]

theorem foldl_set_alive_hit (w h : Nat) (cs : List Coord) :
    ∀ (l : List CellStatus) (j : Nat), j < l.length →
      (∃ c ∈ cs, c.index_in w h = j) →
      (cs.foldl (fun acc c => acc.set (c.index_in w h) CellStatus.Alive) l)[j]?
        = some CellStatus.Alive := by
  induction cs with
  | nil =>
    rintro l j _ ⟨c, hm, _⟩
    exact absurd hm (List.not_mem_nil c)
  | cons c cs ih =>
    rintro l j hj ⟨c2, hm, he⟩
    rw [List.foldl_cons]
    by_cases hex : ∃ c3 ∈ cs, c3.index_in w h = j
    · exact ih _ _ (by rw [List.length_set]; exact hj) hex
    · have hcj : c.index_in w h = j := by
        rcases List.mem_cons.mp hm with hm1 | hm2
        · rw [← hm1]; exact he
        · exact absurd ⟨c2, hm2, he⟩ hex
      rw [foldl_set_alive_miss w h cs _ _ (fun c3 hm3 he3 => hex ⟨c3, hm3, he3⟩),
        List.getElem?_set, if_pos hcj, if_pos (by rw [hcj]; exact hj)]

theorem getElem?_deadGrid (n j : Nat) :
    ((List.range n).map (fun _ => CellStatus.Dead))[j]?
      = if j < n then some CellStatus.Dead else none := by
  by_cases hj : j < n
  · rw [List.getElem?_map, List.getElem?_range hj, if_pos hj]
    rfl
  · rw [List.getElem?_eq_none (by rw [List.length_map, List.length_range]; omega),
      if_neg hj]

/-- C6: the grid built by `from_iter` is `Alive` at an in-bounds position
exactly when some supplied coordinate wraps to that position's index, and
`Dead` everywhere else; consequently duplicates are idempotent:
constructing from `cs` equals constructing from `cs.dedup`. -/
theorem from_iter_characterization (w h : Nat) (_hw1 : 1 ≤ w) (_hw2 : w ≤ 255)
    (_hh1 : 1 ≤ h) (_hh2 : h ≤ 255) (cs : List Coord) (x y : Nat)
    (hx : x < w) (hy : y < h) :
    ((GOL.from_iter w h cs).grid.getD (y * w + x) CellStatus.Dead
        = CellStatus.Alive ↔
      ∃ c ∈ cs, c.index_in w h = y * w + x) ∧
    GOL.from_iter w h cs = GOL.from_iter w h cs.dedup := by
  have hj : y * w + x < w * h := linear_index_lt x y w h hx hy
  have hlen : ((List.range (w * h)).map (fun _ => CellStatus.Dead)).length
      = w * h := by
    rw [List.length_map, List.length_range]
  constructor
  · rw [List.getD_eq_getElem?_getD]
    constructor
    · intro halive
      by_contra hno
      push_neg at hno
      rw [show (GOL.from_iter w h cs).grid
            = cs.foldl (fun acc c => acc.set (c.index_in w h) CellStatus.Alive)
                ((List.range (w * h)).map (fun _ => CellStatus.Dead)) from rfl,
        foldl_set_alive_miss w h cs _ _ hno, getElem?_deadGrid, if_pos hj]
          at halive
      exact absurd halive (by decide)
    · intro hex
      rw [show (GOL.from_iter w h cs).grid
            = cs.foldl (fun acc c => acc.set (c.index_in w h) CellStatus.Alive)
                ((List.range (w * h)).map (fun _ => CellStatus.Dead)) from rfl,
        foldl_set_alive_hit w h cs _ _ (by rw [hlen]; exact hj) hex]
      rfl
  · have hgrids :
        cs.foldl (fun acc c => acc.set (c.index_in w h) CellStatus.Alive)
          ((List.range (w * h)).map (fun _ => CellStatus.Dead))
        = cs.dedup.foldl (fun acc c => acc.set (c.index_in w h) CellStatus.Alive)
            ((List.range (w * h)).map (fun _ => CellStatus.Dead)) := by
      apply List.ext_getElem?
      intro j
      by_cases hex : ∃ c ∈ cs, c.index_in w h = j
      · have hex2 : ∃ c ∈ cs.dedup, c.index_in w h = j := by
          obtain ⟨c, hm, he⟩ := hex
          exact ⟨c, List.mem_dedup.mpr hm, he⟩
        by_cases hjl : j < w * h
        · rw [foldl_set_alive_hit w h cs _ _ (by rw [hlen]; exact hjl) hex,
            foldl_set_alive_hit w h cs.dedup _ _ (by rw [hlen]; exact hjl) hex2]
        · rw [List.getElem?_eq_none (by rw [length_foldl_set, hlen]; omega),
            List.getElem?_eq_none (by rw [length_foldl_set, hlen]; omega)]
      · have hno : ∀ c ∈ cs, c.index_in w h ≠ j :=
          fun c hm he => hex ⟨c, hm, he⟩
        have hno2 : ∀ c ∈ cs.dedup, c.index_in w h ≠ j :=
          fun c hm he => hex ⟨c, List.mem_dedup.mp hm, he⟩
        rw [foldl_set_alive_miss w h cs _ _ hno,
          foldl_set_alive_miss w h cs.dedup _ _ hno2]
    exact congrArg (GOL.mk w h) hgrids

/-- Witness for C6: a duplicated coordinate on a 5x5 grid, checked at
position (1, 2). -/
theorem from_iter_characterization_witness :
    (1 ≤ 5 ∧ (5 : Nat) ≤ 255 ∧ 1 < 5 ∧ 2 < 5) ∧
    (((GOL.from_iter 5 5 [{ x := 1, y := 2 }, { x := 1, y := 2 }]).grid.getD
          (2 * 5 + 1) CellStatus.Dead = CellStatus.Alive ↔
        ∃ c ∈ [({ x := 1, y := 2 } : Coord), { x := 1, y := 2 }],
          c.index_in 5 5 = 2 * 5 + 1) ∧
      GOL.from_iter 5 5 [{ x := 1, y := 2 }, { x := 1, y := 2 }]
        = GOL.from_iter 5 5
            ([({ x := 1, y := 2 } : Coord), { x := 1, y := 2 }]).dedup) :=
  ⟨⟨by decide, by decide, by decide, by decide⟩,
   from_iter_characterization 5 5 (by decide) (by decide) (by decide) (by decide)
     [{ x := 1, y := 2 }, { x := 1, y := 2 }] 1 2 (by decide) (by decide)⟩

/-! ### Shape preservation -/

theorem step_grid_length (g : GOL) : g.step.grid.length = g.grid.length := by
  apply length_foldl_of_preserve
  intro acc y
  apply length_foldl_of_preserve
  intro a2 x
  apply List.length_set

theorem from_iter_grid_length (w h : Nat) (cs : List Coord) :
    (GOL.from_iter w h cs).grid.length = w * h := by
  show (cs.foldl (fun acc c => acc.set (c.index_in w h) CellStatus.Alive)
      ((List.range (w * h)).map (fun _ => CellStatus.Dead))).length = w * h
  rw [length_foldl_set, List.length_map, List.length_range]

/-- C7: `step()` keeps the width, the height, and the `width*height` cell
count, every cell is exactly one of Alive or Dead, and `from_iter`
establishes the same length invariant. -/
theorem step_preserves_shape (g : GOL)
    (_hw1 : 1 ≤ g.width) (_hw2 : g.width ≤ 255)
    (_hh1 : 1 ≤ g.height) (_hh2 : g.height ≤ 255)
    (hlen : g.grid.length = g.width * g.height) :
    g.step.width = g.width ∧ g.step.height = g.height ∧
    g.step.grid.length = g.step.width * g.step.height ∧
    (∀ s ∈ g.step.grid, s = CellStatus.Alive ∨ s = CellStatus.Dead) ∧
    ∀ (w2 h2 : Nat) (cs : List Coord),
      (GOL.from_iter w2 h2 cs).grid.length
        = (GOL.from_iter w2 h2 cs).width * (GOL.from_iter w2 h2 cs).height := by
  refine ⟨rfl, rfl, ?_, ?_, ?_⟩
  · rw [step_grid_length]
    exact hlen
  · intro s _
    cases s
    · exact Or.inl rfl
    · exact Or.inr rfl
  · intro w2 h2 cs
    rw [from_iter_grid_length]
    rfl

/-- Witness for C7 at the horizontal blinker. -/
theorem step_preserves_shape_witness :
    (1 ≤ blinkerH.width ∧ blinkerH.width ≤ 255 ∧ 1 ≤ blinkerH.height ∧
      blinkerH.height ≤ 255 ∧
      blinkerH.grid.length = blinkerH.width * blinkerH.height) ∧
    (blinkerH.step.width = blinkerH.width ∧
      blinkerH.step.height = blinkerH.height ∧
      blinkerH.step.grid.length = blinkerH.step.width * blinkerH.step.height ∧
      (∀ s ∈ blinkerH.step.grid,
        s = CellStatus.Alive ∨ s = CellStatus.Dead) ∧
      ∀ (w2 h2 : Nat) (cs : List Coord),
        (GOL.from_iter w2 h2 cs).grid.length
          = (GOL.from_iter w2 h2 cs).width * (GOL.from_iter w2 h2 cs).height) :=
  ⟨⟨by decide, by decide, by decide, by decide, by decide⟩,
   step_preserves_shape blinkerH (by decide) (by decide) (by decide) (by decide)
     (by decide)⟩

/-- C8: on the 5x5 grid whose only live cells are (1,2),(2,2),(3,2), one
`step()` yields exactly the vertical blinker (2,1),(2,2),(2,3), and a second
`step()` restores exactly the horizontal blinker: a period-2 oscillation. -/
theorem blinker_period_two :
    blinkerH.step = blinkerV ∧ blinkerH.step.step = blinkerH ∧
    (∀ x ∈ List.range 5, ∀ y ∈ List.range 5,
      (blinkerH.step.grid.getD (y * 5 + x) CellStatus.Dead = CellStatus.Alive ↔
        (x, y) ∈ [(2, 1), (2, 2), (2, 3)])) ∧
    (∀ x ∈ List.range 5, ∀ y ∈ List.range 5,
      (blinkerH.step.step.grid.getD (y * 5 + x) CellStatus.Dead
          = CellStatus.Alive ↔
        (x, y) ∈ [(1, 2), (2, 2), (3, 2)])) := by
  decide

/-! ### All-dead grids -/

theorem getElem?_eq_some_getD {α : Type} (l : List α) (j : Nat)
    (hj : j < l.length) (d : α) : l[j]? = some (l.getD j d) := by
  rw [List.getD_eq_getElem?_getD, List.getElem?_eq_getElem hj]
  rfl

theorem deadGrid_getD (n j : Nat) :
    ((List.range n).map (fun _ => CellStatus.Dead)).getD j CellStatus.Dead
      = CellStatus.Dead := by
  rw [List.getD_eq_getElem?_getD, getElem?_deadGrid]
  split_ifs <;> rfl

theorem allDead_getD (w h : Nat) (k : Nat) :
    (GOL.from_iter w h []).grid.getD k CellStatus.Dead = CellStatus.Dead :=
  deadGrid_getD (w * h) k

theorem allDead_step_fixed (w h : Nat) (hw : 1 ≤ w) :
    (GOL.from_iter w h []).step = GOL.from_iter w h [] := by
  have hlen : (GOL.from_iter w h []).grid.length = w * h :=
    from_iter_grid_length w h []
  have hslen : (GOL.from_iter w h []).step.grid.length = w * h := by
    rw [step_grid_length]
    exact hlen
  have hgrids : (GOL.from_iter w h []).step.grid = (GOL.from_iter w h []).grid := by
    apply List.ext_getElem?
    intro j
    by_cases hj : j < w * h
    · have h1 : (GOL.from_iter w h []).step.grid.getD j CellStatus.Dead
          = CellStatus.Dead := by
        rw [step_grid_getD (GOL.from_iter w h []) hlen hw j hj]
        have hcount : (GOL.from_iter w h []).numLiveNeighbors
            { x := ((j % (GOL.from_iter w h []).width : Nat) : Int),
              y := ((j / (GOL.from_iter w h []).width : Nat) : Int) } = 0 := by
          unfold GOL.numLiveNeighbors
          rw [List.length_eq_zero, List.filter_eq_nil_iff]
          intro c2 _
          unfold GOL.is_alive
          rw [allDead_getD w h]
          decide
        rw [hcount, allDead_getD w h j]
        rfl
      rw [getElem?_eq_some_getD _ j (by omega) CellStatus.Dead, h1,
        getElem?_eq_some_getD _ j (by omega) CellStatus.Dead, allDead_getD w h j]
    · rw [List.getElem?_eq_none (by omega), List.getElem?_eq_none (by omega)]
  exact congrArg (GOL.mk w h) hgrids

/-- C9: on the 3x3 toroidal grid whose only live cell is the center, one
`step()` yields the all-Dead grid, and the all-Dead grid of any dimensions
in [1,255] is a fixed point of `step()`. -/
theorem center_dies_and_allDead_is_fixed (w h : Nat)
    (hw1 : 1 ≤ w) (_hw2 : w ≤ 255) (_hh1 : 1 ≤ h) (_hh2 : h ≤ 255) :
    centerOnly3.step = GOL.from_iter 3 3 [] ∧
    (GOL.from_iter w h []).step = GOL.from_iter w h [] :=
  ⟨by decide, allDead_step_fixed w h hw1⟩

/-- Witness for C9 at w = h = 3. -/
theorem center_dies_and_allDead_is_fixed_witness :
    ((1 : Nat) ≤ 3 ∧ (3 : Nat) ≤ 255) ∧
    (centerOnly3.step = GOL.from_iter 3 3 [] ∧
      (GOL.from_iter 3 3 []).step = GOL.from_iter 3 3 []) :=
  ⟨⟨by decide, by decide⟩,
   center_dies_and_allDead_is_fixed 3 3 (by decide) (by decide) (by decide)
     (by decide)⟩

/-- C10: the live-cell count is not conserved by `step()`: the 3x3 grid with
only the center alive (a well-formed grid with dimensions in [1,255]) has 1
live cell before the step and 0 after. -/
theorem population_not_conserved :
    ∃ g : GOL, 1 ≤ g.width ∧ g.width ≤ 255 ∧ 1 ≤ g.height ∧ g.height ≤ 255 ∧
      g.grid.length = g.width * g.height ∧
      g.step.aliveCount ≠ g.aliveCount :=
  ⟨centerOnly3, by decide, by decide, by decide, by decide, by decide, by decide⟩
